import Mathlib

/-!
Shallow embedding of `whats_new.py`, a utility that generates a "What's New"
summary for a release from git history, optionally polished by an external
text-generation service.

External effects are modelled as explicit parameters:
* the git subprocess is a function from the full command line to a
  `GitResult` (exit code, captured stdout, captured stderr);
* the external text-generation call (client construction, network request and
  response extraction, all inside the `try` block) is a function from the
  prompt to `Except String String`, where `Except.error` stands for any raised
  exception and `Except.ok` for the extracted `message.content[0].text`;
* `os.path.abspath` is an opaque function parameter of the entry point.

Python string primitives (`str.strip`, `str.splitlines`, `re.match`,
`"\n".join`, `int`) are modelled by structural recursion over `List Char`,
restricted to ASCII digits, ASCII whitespace and the LF line boundary, which
is the alphabet git and the tag patterns of this program use.
-/

namespace WhatsNew

/-- Result of one subprocess run: exit code plus captured stdout and stderr,
mirroring `subprocess.run(..., stdout=PIPE, stderr=PIPE, text=True)`. -/
structure GitResult where
  returncode : Int
  stdout : String
  stderr : String
deriving DecidableEq

deriving instance DecidableEq for Except

/-- A git behavior: maps the full command line to the process result. -/
def GitExec : Type := List String → GitResult

/-- An external text-generation behavior: maps the user prompt to either the
generated text or a raised exception (any failure: missing credentials at
client construction, network error, malformed or empty response). -/
def AIExec : Type := String → Except String String

/-- The whitespace characters stripped by Python `str.strip()` (ASCII part). -/
def isPySpace (c : Char) : Bool :=
  c = ' ' || c = '\t' || c = '\n' || c = '\r' || c = '\x0b' || c = '\x0c'

/-- Python `str.strip()` on the character list: drop whitespace at both ends. -/
def stripChars (cs : List Char) : List Char :=
  ((cs.dropWhile isPySpace).reverse.dropWhile isPySpace).reverse

/-- Python `str.strip()`. -/
def strip (s : String) : String :=
  (stripChars s.data).asString

/-- Helper for `splitlines`: walk the characters, `acc` holds the current line
reversed; at end of input an in-progress line is emitted only if non-empty
(Python `splitlines` drops a trailing line terminator). -/
def splitlinesAux : List Char → List Char → List String
  | [], acc => if acc.isEmpty then [] else [acc.reverse.asString]
  | c :: cs, acc =>
    if c = '\n' then acc.reverse.asString :: splitlinesAux cs []
    else splitlinesAux cs (c :: acc)

/-- Python `str.splitlines()`, with LF as the line boundary. -/
def splitlines (s : String) : List String :=
  splitlinesAux s.data []

/-- Python `"•sep".join`-style joining used both by the program
(`"\n".join(...)`) and to describe multi-line git output. -/
def joinWith (sep : String) : List String → String
  | [] => ""
  | [s] => s
  | s :: rest => s ++ sep ++ joinWith sep rest

/-- Lines joined by LF: the shape of multi-line git output. -/
def joinLines (lines : List String) : String :=
  joinWith "\n" lines

/--
`run_git_command(repo_path, args)`: run
`["git", "-C", repo_path] + args`, raise `Exception(f"Git error: {stderr}")`
(modelled as `Except.error`) on a non-zero exit code, otherwise return
`result.stdout.strip()`.
-/
def run_git_command (git : GitExec) (repo_path : String) (args : List String) :
    Except String String :=
  let result := git (["git", "-C", repo_path] ++ args)
  if result.returncode ≠ 0 then
    Except.error ("Git error: " ++ result.stderr)
  else
    Except.ok (strip result.stdout)

/-- Does the character list match `\d+\.\d+\.\d+` exactly (anchored on both
sides)?  Maximal munch of digits is equivalent to the regex here because `.`
is not a digit. -/
def isSemverCoreChars (cs : List Char) : Bool :=
  let d1 := cs.takeWhile Char.isDigit
  match cs.dropWhile Char.isDigit with
  | '.' :: cs2 =>
    let d2 := cs2.takeWhile Char.isDigit
    match cs2.dropWhile Char.isDigit with
    | '.' :: cs3 =>
      let d3 := cs3.takeWhile Char.isDigit
      let r3 := cs3.dropWhile Char.isDigit
      !d1.isEmpty && !d2.isEmpty && !d3.isEmpty && r3.isEmpty
    | _ => false
  | _ => false

/-- `re.match(r"^v?(\d+\.\d+\.\d+)$", tag)` on the character list: `some`
of capture group 1 on a match, `none` otherwise.  The optional `v` is
unambiguous because the core never starts with `v`. -/
def normalizeTagChars (cs : List Char) : Option (List Char) :=
  if isSemverCoreChars cs then some cs
  else
    match cs with
    | 'v' :: rest => if isSemverCoreChars rest then some rest else none
    | _ => none

/-- `re.match(r"^v?(\d+\.\d+\.\d+)$", tag)` at the string level. -/
def normalizeTag (tag : String) : Option String :=
  (normalizeTagChars tag.data).map List.asString

/-- Python `int` on a string of ASCII digits. -/
def digitsToNat (cs : List Char) : Nat :=
  cs.foldl (fun n c => n * 10 + (c.toNat - '0'.toNat)) 0

/-- `packaging.version.parse` restricted to the bare `X.Y.Z` strings produced
by `normalizeTag`: the numeric release triple (major, minor, patch). -/
def versionParseChars (cs : List Char) : Nat × Nat × Nat :=
  let d1 := cs.takeWhile Char.isDigit
  let r1 := (cs.dropWhile Char.isDigit).drop 1
  let d2 := r1.takeWhile Char.isDigit
  let r2 := (r1.dropWhile Char.isDigit).drop 1
  let d3 := r2.takeWhile Char.isDigit
  (digitsToNat d1, digitsToNat d2, digitsToNat d3)

/-- `packaging.version.parse` at the string level. -/
def versionParse (s : String) : Nat × Nat × Nat :=
  versionParseChars s.data

/-- Python tuple `<` on release triples: strict lexicographic order, the
order `list.sort(key=version.parse)` sorts by. -/
def tupleLt : Nat × Nat × Nat → Nat × Nat × Nat → Bool
  | (a1, a2, a3), (b1, b2, b3) =>
    a1 < b1 || (a1 == b1 && (a2 < b2 || (a2 == b2 && a3 < b3)))

/-- Strict version order on normalized version strings. -/
def versionLt (a b : String) : Bool :=
  tupleLt (versionParse a) (versionParse b)

/-- Non-strict version order (`key a ≤ key b`). -/
def versionLe (a b : String) : Bool :=
  !(versionLt b a)

/-- Stable insertion of `x` into an already sorted list: `x` goes before the
first element strictly greater than it, hence after all earlier-inserted
elements with an equal key. -/
def insertVersion (x : String) : List String → List String
  | [] => [x]
  | y :: ys => if versionLt y x then y :: insertVersion x ys else x :: y :: ys

/-- `list.sort(key=version.parse)`: a stable sort by the numeric release
triple.  Python's sort is stable, and any stable sort by the same total
preorder produces the same list, so stable insertion sort is a faithful
model. -/
def sortVersions : List String → List String
  | [] => []
  | x :: xs => insertVersion x (sortVersions xs)

/-- The pure core of `get_all_semver_tags`: keep the lines matching
`^v?(\d+\.\d+\.\d+)$` (as capture group 1), then sort by
`version.parse`. -/
def collectSemverTags (raw_tags : List String) : List String :=
  sortVersions (raw_tags.filterMap normalizeTag)

/-- `get_all_semver_tags(repo_path)`: the tag lines of `git tag`, filtered to
semantic versions, normalized and sorted. -/
def get_all_semver_tags (git : GitExec) (repo_path : String) :
    Except String (List String) :=
  (run_git_command git repo_path ["tag"]).map (fun out => collectSemverTags (splitlines out))

/-- Python `list.index` made total: index of the first occurrence, `none`
standing for the raised `ValueError`. -/
def listIndex : List String → String → Option Nat
  | [], _ => none
  | x :: xs, t => if x = t then some 0 else (listIndex xs t).map (· + 1)

/--
`find_previous_version(all_versions, current_version)`:
`all_versions.index(current_version)` (raising `ValueError`, modelled as
`Except.error`, when absent), then the element one before that index, or
`None` (modelled as `none`) at index 0.  When the index is positive it is a
valid position, so the `get?` lookup of the predecessor is always `some`.
-/
def find_previous_version (all_versions : List String) (current_version : String) :
    Except String (Option String) :=
  match listIndex all_versions current_version with
  | none => Except.error ("ValueError: " ++ current_version ++ " is not in list")
  | some idx =>
    if idx > 0 then Except.ok (all_versions.get? (idx - 1)) else Except.ok none

/-- `get_commits_between_versions(repo_path, from_version, to_version)`:
`git log FROM..TO --pretty=format:%s`, split into lines. -/
def get_commits_between_versions (git : GitExec) (repo_path from_version to_version : String) :
    Except String (List String) :=
  (run_git_command git repo_path
      ["log", from_version ++ ".." ++ to_version, "--pretty=format:%s"]).map splitlines

/-- The mechanically bulleted commit list:
`"\n".join(f"• {msg}" for msg in commits)`. -/
def bulletList (commits : List String) : String :=
  joinWith "\n" (commits.map (fun msg => "• " ++ msg))

/-- The user prompt built for the text-generation call (the f-string of the
source, with the interpolations spliced in). -/
def whatsNewPrompt (commits : List String) (current_version : String) : String :=
  "Here are the commit messages for version " ++ current_version ++ ":\n\n" ++
  bulletList commits ++
  "\n\nCreate a clear, well-organized \"What's New\" summary in plain text format (no markdown). Group related changes together and make it user-friendly. Focus on important changes and improvements. Remove technical jargon and internal references. Use bullet points with • character. Keep the tone professional but approachable."

/--
`format_whats_new_with_claude(commits, current_version)`: empty commit list
short-circuits to `"No changes found."` before the `try` block; otherwise the
external call's text is returned on success, and any exception falls back to
`"What's New:\n\n"` plus the bulleted list.
-/
def format_whats_new_with_claude (ai : AIExec) (commits : List String)
    (current_version : String) : String :=
  if commits.isEmpty then "No changes found."
  else
    match ai (whatsNewPrompt commits current_version) with
    | Except.ok text => text
    | Except.error _ => "What's New:\n\n" ++ bulletList commits

/--
`main()` after argument parsing: resolve the repository path, collect the
sorted normalized versions, check literal membership of the argument, find
the predecessor (`if not prev_version` is falsy both for `None` and for the
empty string), read the commit range and format it.  `Except.ok summary`
models printing the summary and exiting 0; `Except.error` models any uncaught
exception terminating the process with non-zero status.
-/
def main (abspath : String → String) (git : GitExec) (ai : AIExec)
    (repo_path_arg version_arg : String) : Except String String :=
  let repo_path := abspath repo_path_arg
  match get_all_semver_tags git repo_path with
  | Except.error e => Except.error e
  | Except.ok all_versions =>
    if version_arg ∈ all_versions then
      match find_previous_version all_versions version_arg with
      | Except.error e => Except.error e
      | Except.ok none => Except.error "No previous version found."
      | Except.ok (some prev_version) =>
        if prev_version = "" then Except.error "No previous version found."
        else
          match get_commits_between_versions git repo_path prev_version version_arg with
          | Except.error e => Except.error e
          | Except.ok commits =>
            Except.ok (format_whats_new_with_claude ai commits version_arg)
    else Except.error ("Version " ++ version_arg ++ " not found in tags.")

/-- Modelled from the spec's words in C5 ("standard output with trailing
whitespace trimmed"): trimming at the trailing end only, for comparison with
the source's two-sided `strip`. -/
def stripTrailingOnly (s : String) : String :=
  ((s.data.reverse.dropWhile isPySpace).reverse).asString

/-! ### Concrete external behaviors used in witnesses and counterexamples -/

/-- A constantly failing text-generation call. -/
def aiDownC1 : AIExec := fun _ => Except.error "service unreachable"

/-- A subprocess whose standard output has leading whitespace. -/
def gitLeadingWhitespace : GitExec := fun _ => GitResult.mk 0 "  hello" ""

/-- A subprocess that succeeds with whitespace-padded output. -/
def gitEchoOk : GitExec := fun _ => GitResult.mk 0 " hi " ""

/-- A subprocess that exits non-zero with diagnostic stderr. -/
def gitEchoFail : GitExec := fun _ => GitResult.mk 1 "" "boom"

/-- A three-commit revision walk. -/
def gitLogThree : GitExec :=
  fun _ => GitResult.mk 0 "Fix crash\nAdd export\nUpdate docs" ""

/-- Revision walks with edge-case subject lines: for range `1.0.0..1.1.0`
the subjects are `[" Fix", "Add"]` (first subject has a leading space, so the
joined output is `" Fix\nAdd"`); for range `1.1.0..1.2.0` the subjects are
`["Fix", ""]` (last commit has an empty subject, joined output `"Fix\n"`). -/
def gitEdgeSubjects : GitExec := fun args =>
  if args = ["git", "-C", "/repo", "log", "1.0.0..1.1.0", "--pretty=format:%s"] then
    GitResult.mk 0 " Fix\nAdd" ""
  else if args = ["git", "-C", "/repo", "log", "1.1.0..1.2.0", "--pretty=format:%s"] then
    GitResult.mk 0 "Fix\n" ""
  else GitResult.mk 1 "" "unexpected"

/-- A repository whose tags are `v1.0.0` and `v1.1.0`. -/
def gitVPrefixedTags : GitExec := fun args =>
  if args = ["git", "-C", "/repo", "tag"] then GitResult.mk 0 "v1.0.0\nv1.1.0" ""
  else GitResult.mk 1 "" "unexpected"

/-- An unavailable text-generation service. -/
def aiUnavailable : AIExec := fun _ => Except.error "unreachable"

/-- A repository with bare tags `1.0.0`, `1.1.0` and two commits between
them. -/
def gitRelease : GitExec := fun args =>
  if args = ["git", "-C", "/repo", "tag"] then GitResult.mk 0 "1.0.0\n1.1.0" ""
  else if args = ["git", "-C", "/repo", "log", "1.0.0..1.1.0",
      "--pretty=format:%s"] then GitResult.mk 0 "Fix crash\nAdd export" ""
  else GitResult.mk 1 "" "unexpected"

/-! ### Order lemmas for the numeric release-triple comparison -/

theorem tupleLt_asymm {a b : Nat × Nat × Nat} (h : tupleLt a b = true) :
    tupleLt b a = false := by
  obtain ⟨a1, a2, a3⟩ := a
  obtain ⟨b1, b2, b3⟩ := b
  simp only [tupleLt, Bool.or_eq_true, Bool.and_eq_true, decide_eq_true_eq,
    beq_iff_eq] at h
  simp only [tupleLt, Bool.or_eq_false_iff, Bool.and_eq_false_iff,
    decide_eq_false_iff_not, beq_eq_false_iff_ne, ne_eq]
  omega

theorem tupleLt_le_trans {a b c : Nat × Nat × Nat}
    (hba : tupleLt b a = false) (hcb : tupleLt c b = false) :
    tupleLt c a = false := by
  obtain ⟨a1, a2, a3⟩ := a
  obtain ⟨b1, b2, b3⟩ := b
  obtain ⟨c1, c2, c3⟩ := c
  simp only [tupleLt, Bool.or_eq_false_iff, Bool.and_eq_false_iff,
    decide_eq_false_iff_not, beq_eq_false_iff_ne, ne_eq] at hba hcb ⊢
  omega

/-! ### The stable sort is a permutation and produces an ascending list -/

theorem insertVersion_perm (x : String) (l : List String) :
    (insertVersion x l).Perm (x :: l) := by
  induction l with
  | nil => exact List.Perm.refl _
  | cons y ys ih =>
    simp only [insertVersion]
    by_cases h : versionLt y x = true
    · rw [if_pos h]
      exact (ih.cons y).trans (List.Perm.swap x y ys)
    · rw [if_neg h]

theorem sortVersions_perm (l : List String) : (sortVersions l).Perm l := by
  induction l with
  | nil => exact List.Perm.refl _
  | cons x xs ih =>
    exact (insertVersion_perm x (sortVersions xs)).trans (ih.cons x)

theorem mem_insertVersion {z x : String} {l : List String}
    (hz : z ∈ insertVersion x l) : z = x ∨ z ∈ l := by
  have := (insertVersion_perm x l).mem_iff.mp hz
  simpa using this

theorem insertVersion_pairwise (x : String) (l : List String)
    (h : l.Pairwise (fun a b => versionLt b a = false)) :
    (insertVersion x l).Pairwise (fun a b => versionLt b a = false) := by
  induction l with
  | nil => simp [insertVersion]
  | cons y ys ih =>
    rcases List.pairwise_cons.mp h with ⟨hy, hys⟩
    simp only [insertVersion]
    by_cases hcmp : versionLt y x = true
    · rw [if_pos hcmp]
      refine List.pairwise_cons.mpr ⟨?_, ih hys⟩
      intro z hz
      rcases mem_insertVersion hz with rfl | hz
      · exact tupleLt_asymm hcmp
      · exact hy z hz
    · rw [if_neg hcmp]
      rw [Bool.not_eq_true] at hcmp
      refine List.pairwise_cons.mpr ⟨?_, h⟩
      intro z hz
      rcases List.mem_cons.mp hz with rfl | hz'
      · exact hcmp
      · exact tupleLt_le_trans hcmp (hy z hz')

theorem sortVersions_pairwise (l : List String) :
    (sortVersions l).Pairwise (fun a b => versionLt b a = false) := by
  induction l with
  | nil => exact List.Pairwise.nil
  | cons x xs ih => exact insertVersion_pairwise x (sortVersions xs) ih

/-! ### `list.index` and the predecessor lookup -/

theorem listIndex_eq_none {xs : List String} {t : String} (h : t ∉ xs) :
    listIndex xs t = none := by
  induction xs with
  | nil => rfl
  | cons x xs ih =>
    simp only [List.mem_cons, not_or] at h
    have hxt : ¬ x = t := fun hx => h.1 hx.symm
    simp only [listIndex, if_neg hxt, ih h.2, Option.map_none']

theorem listIndex_append {pre post : List String} {x : String} (h : x ∉ pre) :
    listIndex (pre ++ x :: post) x = some pre.length := by
  induction pre with
  | nil => simp [listIndex]
  | cons p ps ih =>
    simp only [List.mem_cons, not_or] at h
    have hpx : ¬ p = x := fun hp => h.1 hp.symm
    simp only [List.cons_append, listIndex, if_neg hpx]
    show Option.map (fun n => n + 1) (listIndex (ps ++ x :: post) x)
      = some (ps.length + 1)
    rw [ih h.2]
    rfl

theorem get?_append_pre_last (pre rest : List String) (h : pre ≠ []) :
    (pre ++ rest).get? (pre.length - 1) = pre.getLast? := by
  induction pre with
  | nil => exact absurd rfl h
  | cons a l ih =>
    cases l with
    | nil => rfl
    | cons b t =>
      have hne : b :: t ≠ [] := by simp
      calc ((a :: b :: t) ++ rest).get? ((a :: b :: t).length - 1)
          = ((b :: t) ++ rest).get? ((b :: t).length - 1) := by
            simp [List.length_cons]
        _ = (b :: t).getLast? := ih hne
        _ = (a :: b :: t).getLast? := (List.getLast?_cons_cons).symm

/-- The behavior of `find_previous_version` when the target occurs in the
list and its first occurrence is preceded exactly by `pre`: the result is the
last element of `pre` (so `none`, Python `None`, when the target is first). -/
theorem find_previous_version_eq (pre post : List String) (x : String)
    (h : x ∉ pre) :
    find_previous_version (pre ++ x :: post) x = Except.ok pre.getLast? := by
  cases hpre : pre with
  | nil =>
    simp [find_previous_version, listIndex]
  | cons p ps =>
    rw [← hpre]
    have hidx : listIndex (pre ++ x :: post) x = some pre.length :=
      listIndex_append h
    have hlen : pre.length > 0 := by rw [hpre]; simp
    have hne : pre ≠ [] := by rw [hpre]; simp
    simp only [find_previous_version, hidx, if_pos hlen]
    rw [get?_append_pre_last pre (x :: post) hne]

/-! ### Splitting joined lines recovers the lines -/

theorem splitlinesAux_append_newline (rest : List Char) (cs : List Char) :
    ∀ acc : List Char, (∀ c ∈ cs, c ≠ '\n') →
      splitlinesAux (cs ++ '\n' :: rest) acc =
        (acc.reverse ++ cs).asString :: splitlinesAux rest [] := by
  induction cs with
  | nil =>
    intro acc _
    simp [splitlinesAux]
  | cons c cs ih =>
    intro acc h
    have hc : c ≠ '\n' := h c (List.mem_cons_self c cs)
    have hcs : ∀ d ∈ cs, d ≠ '\n' := fun d hd => h d (List.mem_cons_of_mem c hd)
    have hstep : splitlinesAux ((c :: cs) ++ '\n' :: rest) acc
        = splitlinesAux (cs ++ '\n' :: rest) (c :: acc) := by
      simp [splitlinesAux, hc]
    rw [hstep, ih (c :: acc) hcs, List.reverse_cons, List.append_assoc,
      List.singleton_append]

theorem splitlinesAux_no_newline (cs : List Char) :
    ∀ acc : List Char, (∀ c ∈ cs, c ≠ '\n') → acc.reverse ++ cs ≠ [] →
      splitlinesAux cs acc = [(acc.reverse ++ cs).asString] := by
  induction cs with
  | nil =>
    intro acc _ hne
    have hacc : ¬ acc.isEmpty = true := by
      simp only [List.append_nil] at hne
      simp only [List.isEmpty_iff]
      intro hnil
      exact hne (by rw [hnil]; rfl)
    simp [splitlinesAux, hacc]
  | cons c cs ih =>
    intro acc h _
    have hc : c ≠ '\n' := h c (List.mem_cons_self c cs)
    have hcs : ∀ d ∈ cs, d ≠ '\n' := fun d hd => h d (List.mem_cons_of_mem c hd)
    have hne' : (c :: acc).reverse ++ cs ≠ [] := by simp
    have hstep : splitlinesAux (c :: cs) acc = splitlinesAux cs (c :: acc) := by
      simp [splitlinesAux, hc]
    rw [hstep, ih (c :: acc) hcs hne', List.reverse_cons, List.append_assoc,
      List.singleton_append]

theorem asString_data (s : String) : s.data.asString = s := by
  cases s
  rfl

theorem data_ne_nil_of_ne_empty {s : String} (h : s ≠ "") : s.data ≠ [] := by
  intro hd
  apply h
  have : s.data = ("" : String).data := hd
  cases s
  cases this
  rfl

/-- Splitting a LF-joined list of lines recovers exactly the lines, provided
no line contains LF and the last line is not empty (a trailing LF would be
dropped by `splitlines`). -/
theorem splitlines_joinLines (lines : List String)
    (hnl : ∀ s ∈ lines, ∀ c ∈ s.data, c ≠ '\n')
    (hlast : lines.getLast? ≠ some "") :
    splitlines (joinLines lines) = lines := by
  induction lines with
  | nil => rfl
  | cons s rest ih =>
    cases rest with
    | nil =>
      have hs : s ≠ "" := by
        intro hs
        exact hlast (by rw [hs]; rfl)
      have hd : s.data ≠ [] := data_ne_nil_of_ne_empty hs
      show splitlinesAux s.data [] = [s]
      rw [splitlinesAux_no_newline s.data []
        (hnl s (List.mem_cons_self s [])) (by simpa using hd)]
      simp [asString_data]
    | cons s' t =>
      have hjoin : joinLines (s :: s' :: t) = s ++ "\n" ++ joinLines (s' :: t) := rfl
      have hdata : (joinLines (s :: s' :: t)).data
          = s.data ++ '\n' :: (joinLines (s' :: t)).data := by
        rw [hjoin]
        simp only [String.data_append, List.append_assoc]
        rfl
      show splitlinesAux (joinLines (s :: s' :: t)).data [] = s :: s' :: t
      rw [hdata, splitlinesAux_append_newline _ s.data []
        (hnl s (List.mem_cons_self s (s' :: t)))]
      have ih' : splitlinesAux (joinLines (s' :: t)).data [] = s' :: t := by
        apply ih
        · intro u hu c hc
          exact hnl u (List.mem_cons_of_mem s hu) c hc
        · rwa [List.getLast?_cons_cons] at hlast
      rw [ih']
      simp [asString_data]

/-! ### Claim theorems -/

/-- C1: for every non-empty commit list and every version string, if the
external text-generation call fails in any way, `format_whats_new_with_claude`
returns exactly `"What's New:\n\n"` followed by the commits bulleted with
`"• "` and joined by newlines, and never raises (the model is a total
function returning this string). -/
theorem format_fallback_on_failure (ai : AIExec) (commits : List String)
    (v : String) (hfail : ∀ p, ∃ e, ai p = Except.error e)
    (hne : commits ≠ []) :
    format_whats_new_with_claude ai commits v
      = "What's New:\n\n" ++ bulletList commits := by
  obtain ⟨e, he⟩ := hfail (whatsNewPrompt commits v)
  have hempty : commits.isEmpty = false := by
    cases commits with
    | nil => exact absurd rfl hne
    | cons a l => rfl
  simp [format_whats_new_with_claude, hempty, he]

/-- Witness for C1 at the spec's own example. -/
theorem format_fallback_on_failure_witness :
    format_whats_new_with_claude aiDownC1 ["Fix bug", "Add feature"] "1.0.0"
      = "What's New:\n\n• Fix bug\n• Add feature" :=
  (format_fallback_on_failure aiDownC1 ["Fix bug", "Add feature"] "1.0.0"
    (fun _ => ⟨"service unreachable", rfl⟩) (by decide)).trans (by decide)

/-- C2: the Tag Collector's output contains exactly the lines matching
`^v?(\d+\.\d+\.\d+)$`, normalized by stripping a leading `v` (a permutation
of the filter-map, since sorting only reorders); malformed entries such as
`release-1` and `1.2` are silently discarded, and an empty tag list yields an
empty output list, not an error. -/
theorem collect_semver_tags_filter_normalize (raw_tags : List String) :
    (collectSemverTags raw_tags).Perm (raw_tags.filterMap normalizeTag) ∧
    normalizeTag "1.2.3" = some "1.2.3" ∧
    normalizeTag "v1.2.3" = some "1.2.3" ∧
    normalizeTag "release-1" = none ∧
    normalizeTag "1.2" = none ∧
    collectSemverTags ["1.2.3", "v1.2.3", "release-1", "1.2"] = ["1.2.3", "1.2.3"] ∧
    collectSemverTags [] = [] :=
  ⟨sortVersions_perm _, by decide, by decide, by decide, by decide, by decide,
    by decide⟩

/-- C3: the Tag Collector sorts ascending by numeric-tuple comparison on
(major, minor, patch): every output is pairwise ordered under the numeric
key order, that order is exactly strict lexicographic comparison of the
numeric triples, and `"10.0.0"` sorts after `"9.9.9"` even though the
lexical string order would invert them. -/
theorem collect_semver_tags_sorted_numerically (raw_tags : List String) :
    (collectSemverTags raw_tags).Pairwise (fun a b => versionLt b a = false) ∧
    (∀ t u : Nat × Nat × Nat, tupleLt t u = true ↔
      (t.1 < u.1 ∨ (t.1 = u.1 ∧ (t.2.1 < u.2.1 ∨ (t.2.1 = u.2.1 ∧ t.2.2 < u.2.2))))) ∧
    collectSemverTags ["10.0.0", "9.9.9"] = ["9.9.9", "10.0.0"] ∧
    versionLt "9.9.9" "10.0.0" = true ∧
    "10.0.0".data < "9.9.9".data := by
  refine ⟨sortVersions_pairwise _, ?_, by decide, by decide, by decide⟩
  intro t u
  obtain ⟨t1, t2, t3⟩ := t
  obtain ⟨u1, u2, u3⟩ := u
  simp only [tupleLt, Bool.or_eq_true, Bool.and_eq_true, decide_eq_true_eq,
    beq_iff_eq]

/-- C4: for every ordered version list containing the target (here written
as `pre ++ target :: post` with the target not occurring earlier), the
result is the last element of `pre`: absent when the target is the first
element, and otherwise the element immediately preceding it; including the
spec's two concrete examples. -/
theorem find_previous_version_spec (pre post : List String) (x : String)
    (h : x ∉ pre) :
    find_previous_version (pre ++ x :: post) x = Except.ok pre.getLast? ∧
    find_previous_version ["1.0.0", "1.1.0", "2.0.0"] "1.1.0"
      = Except.ok (some "1.0.0") ∧
    find_previous_version ["1.0.0", "1.1.0", "2.0.0"] "1.0.0" = Except.ok none :=
  ⟨find_previous_version_eq pre post x h, by decide, by decide⟩

/-- Witness for C4. -/
theorem find_previous_version_spec_witness :
    find_previous_version (["1.0.0"] ++ "1.1.0" :: ["2.0.0"]) "1.1.0"
      = Except.ok (["1.0.0"] : List String).getLast? ∧
    find_previous_version ["1.0.0", "1.1.0", "2.0.0"] "1.1.0"
      = Except.ok (some "1.0.0") ∧
    find_previous_version ["1.0.0", "1.1.0", "2.0.0"] "1.0.0" = Except.ok none :=
  find_previous_version_spec ["1.0.0"] ["2.0.0"] "1.1.0" (by decide)

/-- C5 is falsified as stated: with exit code 0 and stdout `"  hello"` the
code returns `"hello"`, not the trailing-only trim `"  hello"`. -/
theorem run_git_command_not_trailing_only :
    run_git_command gitLeadingWhitespace "repo" ["tag"] = Except.ok "hello" ∧
    stripTrailingOnly "  hello" = "  hello" ∧
    run_git_command gitLeadingWhitespace "repo" ["tag"]
      ≠ Except.ok (stripTrailingOnly "  hello") :=
  ⟨by decide, by decide, by decide⟩

/-- C5 (amended): the Command Runner returns the captured standard output
with leading and trailing whitespace trimmed when the exit code is zero, and
fails with an error carrying the captured standard-error text when the exit
code is non-zero; the result is a function of the single subprocess result
(no retry). -/
theorem run_git_command_spec (git : GitExec) (repo_path : String)
    (args : List String) (rc : Int) (out err : String)
    (hres : git (["git", "-C", repo_path] ++ args) = GitResult.mk rc out err) :
    (rc = 0 → run_git_command git repo_path args = Except.ok (strip out)) ∧
    (rc ≠ 0 →
      run_git_command git repo_path args
        = Except.error ("Git error: " ++ err)) := by
  have hres' : git ("git" :: "-C" :: repo_path :: args) = GitResult.mk rc out err := by
    simpa using hres
  constructor
  · intro h0
    simp [run_git_command, hres', h0]
  · intro hn
    simp [run_git_command, hres', hn]

/-- Witness for the amended C5, one instance per branch. -/
theorem run_git_command_spec_witness :
    run_git_command gitEchoOk "repo" ["tag"] = Except.ok (strip " hi ") ∧
    run_git_command gitEchoFail "repo" ["tag"]
      = Except.error ("Git error: " ++ "boom") :=
  ⟨(run_git_command_spec gitEchoOk "repo" ["tag"] 0 " hi " "" rfl).1 rfl,
   (run_git_command_spec gitEchoFail "repo" ["tag"] 1 "" "boom" rfl).2 (by decide)⟩

/-- C6 is falsified as stated: the Commit Range Reader does not return the
commit subject lines verbatim for every successful revision walk, because
the code applies `strip()` to the output before splitting.  With exit code 0
and subjects `[" Fix", "Add"]` (joined output `" Fix\nAdd"`) it returns
`["Fix", "Add"]`, altering the first subject; with subjects `["Fix", ""]`
(joined output `"Fix\n"`, an empty last subject) it returns `["Fix"]`, one
entry fewer than the commits. -/
theorem get_commits_not_verbatim :
    joinLines [" Fix", "Add"] = " Fix\nAdd" ∧
    get_commits_between_versions gitEdgeSubjects "/repo" "1.0.0" "1.1.0"
      = Except.ok ["Fix", "Add"] ∧
    get_commits_between_versions gitEdgeSubjects "/repo" "1.0.0" "1.1.0"
      ≠ Except.ok [" Fix", "Add"] ∧
    joinLines ["Fix", ""] = "Fix\n" ∧
    get_commits_between_versions gitEdgeSubjects "/repo" "1.1.0" "1.2.0"
      = Except.ok ["Fix"] ∧
    get_commits_between_versions gitEdgeSubjects "/repo" "1.1.0" "1.2.0"
      ≠ Except.ok ["Fix", ""] :=
  ⟨by decide, by decide, by decide, by decide, by decide, by decide⟩

/-- C6 (amended): the Commit Range Reader splits the *stripped* output into
lines, so the verbatim guarantee holds exactly when stripping is the
identity on the joined output and no trailing empty subject is dropped:
when the revision walk succeeds (exit code 0) and its output is the subject
lines joined by LF — no subject containing LF, no trailing empty subject,
no whitespace at the output's edges — the reader returns exactly one entry
per subject in the tool's order; the empty output (`subjects = []`) yields
the empty list, not an error. -/
theorem get_commits_between_versions_spec (git : GitExec)
    (repo_path from_version to_version err : String) (subjects : List String)
    (hnl : ∀ s ∈ subjects, ∀ c ∈ s.data, c ≠ '\n')
    (hlast : subjects.getLast? ≠ some "")
    (hstrip : strip (joinLines subjects) = joinLines subjects)
    (hgit : git ["git", "-C", repo_path, "log",
        from_version ++ ".." ++ to_version, "--pretty=format:%s"]
      = GitResult.mk 0 (joinLines subjects) err) :
    get_commits_between_versions git repo_path from_version to_version
      = Except.ok subjects := by
  have hrun : run_git_command git repo_path
      ["log", from_version ++ ".." ++ to_version, "--pretty=format:%s"]
      = Except.ok (joinLines subjects) := by
    simp only [run_git_command, List.cons_append, List.nil_append]
    rw [hgit]
    simp [hstrip]
  simp only [get_commits_between_versions, hrun, Except.map]
  rw [splitlines_joinLines subjects hnl hlast]

/-- Witness for C6. -/
theorem get_commits_between_versions_spec_witness :
    get_commits_between_versions gitLogThree "/repo" "1.0.0" "1.1.0"
      = Except.ok ["Fix crash", "Add export", "Update docs"] :=
  get_commits_between_versions_spec gitLogThree "/repo" "1.0.0" "1.1.0" ""
    ["Fix crash", "Add export", "Update docs"] (by decide) (by decide)
    (by decide) (by decide)

/-- C7: for the empty commit list and any version string, the formatter
returns exactly the fixed no-changes message, and the result does not depend
on the external text-generation behavior at all (no call is made: the
short-circuit happens before the `try` block). -/
theorem format_empty_no_changes (ai ai' : AIExec) (v : String) :
    format_whats_new_with_claude ai [] v = "No changes found." ∧
    format_whats_new_with_claude ai [] v
      = format_whats_new_with_claude ai' [] v :=
  ⟨rfl, rfl⟩

/-- C8 is falsified as stated: the tag `v1.1.0` exists (it is collected,
normalized, as `1.1.0`), the argument `v1.1.0` matches `^v?\d+\.\d+\.\d+$`,
yet the run fails the membership check and exits non-zero with
`Version v1.1.0 not found in tags.` instead of succeeding. -/
theorem main_v_prefixed_rejected :
    get_all_semver_tags gitVPrefixedTags "/repo" = Except.ok ["1.0.0", "1.1.0"] ∧
    main id gitVPrefixedTags aiUnavailable "/repo" "v1.1.0"
      = Except.error "Version v1.1.0 not found in tags." :=
  ⟨by decide, by decide⟩

/-- C8 (amended): the entry point succeeds exactly for arguments that
literally equal an entry of the collected (normalized, bare `X.Y.Z`) version
list: whenever tag collection yields a list containing the argument, the
predecessor lookup finds an earlier version, and the log call succeeds, the
run returns the formatted summary with exit code 0 (`Except.ok`).  A
`v`-prefixed argument can never equal a normalized entry, so it is rejected
even when its tag exists. -/
theorem main_success_spec (abspath : String → String) (git : GitExec)
    (ai : AIExec) (repo_path_arg version_arg prev : String)
    (all_versions commits : List String)
    (htags : get_all_semver_tags git (abspath repo_path_arg)
      = Except.ok all_versions)
    (hmem : version_arg ∈ all_versions)
    (hprev : find_previous_version all_versions version_arg
      = Except.ok (some prev))
    (hprev_ne : prev ≠ "")
    (hlog : get_commits_between_versions git (abspath repo_path_arg) prev version_arg
      = Except.ok commits) :
    main abspath git ai repo_path_arg version_arg
      = Except.ok (format_whats_new_with_claude ai commits version_arg) := by
  simp only [main, htags, if_pos hmem, hprev, if_neg hprev_ne, hlog]

/-- Witness for the amended C8. -/
theorem main_success_spec_witness :
    main id gitRelease aiUnavailable "/repo" "1.1.0"
      = Except.ok (format_whats_new_with_claude aiUnavailable
          ["Fix crash", "Add export"] "1.1.0") :=
  main_success_spec id gitRelease aiUnavailable "/repo" "1.1.0" "1.0.0"
    ["1.0.0", "1.1.0"] ["Fix crash", "Add export"] (by decide) (by decide)
    (by decide) (by decide) (by decide)

/-- C9: if the target version is absent from the version list,
`find_previous_version` does not return a value at all — the `list.index`
lookup raises `ValueError` (modelled as `Except.error`), which propagates to
the caller. -/
theorem find_previous_version_missing_raises (all_versions : List String)
    (t : String) (h : t ∉ all_versions) :
    find_previous_version all_versions t
      = Except.error ("ValueError: " ++ t ++ " is not in list") ∧
    ∀ r : Option String, find_previous_version all_versions t ≠ Except.ok r := by
  have herr : find_previous_version all_versions t
      = Except.error ("ValueError: " ++ t ++ " is not in list") := by
    simp only [find_previous_version, listIndex_eq_none h]
  exact ⟨herr, fun r hr => by rw [herr] at hr; exact Except.noConfusion hr⟩

/-- Witness for C9. -/
theorem find_previous_version_missing_raises_witness :
    find_previous_version ["1.0.0", "1.1.0"] "2.0.0"
      = Except.error ("ValueError: " ++ "2.0.0" ++ " is not in list") ∧
    ∀ r : Option String,
      find_previous_version ["1.0.0", "1.1.0"] "2.0.0" ≠ Except.ok r :=
  find_previous_version_missing_raises ["1.0.0", "1.1.0"] "2.0.0" (by decide)

/-- C10: when the target occurs more than once, `find_previous_version`
resolves relative to the first occurrence: on
`pre ++ target :: mid ++ target :: post` with the target not in `pre`, the
result is the element just before the first occurrence (the last element of
`pre`), or absent when that first occurrence is at position 0. -/
theorem find_previous_version_first_occurrence (pre mid post : List String)
    (x : String) (h : x ∉ pre) :
    find_previous_version (pre ++ x :: (mid ++ x :: post)) x
      = Except.ok pre.getLast? ∧
    find_previous_version ["1.0.0", "1.0.0", "2.0.0"] "1.0.0" = Except.ok none ∧
    find_previous_version ["0.9.0", "1.0.0", "1.0.0"] "1.0.0"
      = Except.ok (some "0.9.0") :=
  ⟨find_previous_version_eq pre (mid ++ x :: post) x h, by decide, by decide⟩

/-- Witness for C10. -/
theorem find_previous_version_first_occurrence_witness :
    find_previous_version (["0.9.0"] ++ "1.0.0" :: ([] ++ "1.0.0" :: []))
      "1.0.0" = Except.ok (["0.9.0"] : List String).getLast? ∧
    find_previous_version ["1.0.0", "1.0.0", "2.0.0"] "1.0.0" = Except.ok none ∧
    find_previous_version ["0.9.0", "1.0.0", "1.0.0"] "1.0.0"
      = Except.ok (some "0.9.0") :=
  find_previous_version_first_occurrence ["0.9.0"] [] [] "1.0.0" (by decide)

end WhatsNew
